import Mathlib

/-!
Verification of the scroll context-aware conversion core (src/ctx.rs).

Byte buffers (`&[u8]`, `&mut [u8]`) are modelled as `List Nat` whose elements
are byte values; wherever a byte is consumed, an explicit `% 256` embeds the
`u8` element type.  Offsets and lengths (`usize`) are modelled as `Nat`.
Mutation of a `&mut [u8]` destination is modelled by returning the new buffer
alongside the operation's `Result`.  The Rust `Result<T, Error>` is `Except
Error T`.  Panics of the infallible tier (`assert!`, slice indexing) are
modelled separately by `Option`-valued "checked" variants in which `none`
stands for a panic.
-/

namespace Scroll

/-- Modelled from the spec: the byte-order enumeration (the repository file
`endian.rs` is not under `src/`).  The spec says `Native` is a resolved alias
for whichever of Little/Big matches the host, and the conversion code in
`ctx.rs` consumes an endianness only through `is_little()`, so the two
physical encodings suffice. -/
inductive Endian where
  | little
  | big
deriving DecidableEq, Repr

/-- `Endian::is_little`, the single accessor used by `ctx.rs`. -/
def Endian.is_little : Endian → Bool
  | .little => true
  | .big => false

/-- Modelled from the spec: the error type (the repository file `error.rs` is
not under `src/`).  Three variants: bad range (requested `start..stop` against
actual `size`), bad offset (a single invalid offset), bad input (bytes in
range but invalid as text, carrying the range, the byte count and a reason
string). -/
inductive Error where
  | BadRange (rangeStart rangeStop size : Nat)
  | BadOffset (offset : Nat)
  | BadInput (rangeStart rangeStop size : Nat) (msg : String)
deriving DecidableEq, Repr

/-- The reason string attached by `ctx.rs` to every text-validation failure. -/
def invalidUtf8Msg : String := "invalid utf8"

/-- Recognizer for the bad-offset variant. -/
def Error.isBadOffset : Error → Bool
  | .BadOffset _ => true
  | _ => false

/-- A byte buffer: the model of `[u8]`. -/
abbrev Bytes := List Nat

/-- The little-endian byte image of a value: `w` bytes, least significant
first.  This is `transmute::<T, [u8; w]>(n)` on a little-endian host. -/
def natToBytesLE : Nat → Nat → Bytes
  | 0, _ => []
  | w + 1, n => n % 256 :: natToBytesLE w (n / 256)

/-- The value stored by a byte sequence read least-significant-first: the
inverse transmute, i.e. what `copy_nonoverlapping` into a zero-initialised
unsigned integer produces on a little-endian host.  The `% 256` on each
element embeds the `u8` type of the source bytes. -/
def bytesToNatLE : Bytes → Nat
  | [] => 0
  | b :: bs => b % 256 + 256 * bytesToNatLE bs

/-- Rust's `swap_bytes` restricted to a `w`-byte value: the value whose byte
image is the reversal of `n`'s byte image. -/
def swap_bytes : Nat → Nat → Nat
  | 0, _ => 0
  | w + 1, n => n % 256 * 256 ^ w + swap_bytes w (n / 256)

/-- The byte image produced by the `write_into!` macro for a `w`-byte value:
`transmute(if endian.is_little() { n.to_le() } else { n.to_be() })`.  On
either host order this is the little-endian image under a little context and
the byte-reversed (big-endian) image under a big context. -/
def encodeBytes (w n : Nat) (le : Bool) : Bytes :=
  if le then natToBytesLE w n else (natToBytesLE w n).reverse

/-- `write_into!($typ, $size, $n, $dst, $endian)`: overwrite the first `w`
bytes of `dst` with the byte image of `n` (the macro's `copy_nonoverlapping`
into `dst.as_mut_ptr()`). -/
def write_into (w n : Nat) (dst : Bytes) (le : Bool) : Bytes :=
  encodeBytes w n le ++ dst.drop w

/-- `IntoCtx::into_ctx` from `into_ctx_impl!`, unsigned case: delegate to
`write_into!` (the `assert!(dst.len() >= size)` precondition is modelled by
`u_into_ctx_checked`). -/
def u_into_ctx (w n : Nat) (dst : Bytes) (le : Bool) : Bytes :=
  write_into w n dst le

/-- `FromCtx::from_ctx` from `from_ctx_impl!`, unsigned case: copy `w` bytes
into a zeroed unsigned integer (a native-order load, little-endian host), then
apply `to_le`/`to_be` as selected by the context; `to_be` is a byte swap.
(The `assert!(src.len() >= size)` precondition is modelled by
`u_from_ctx_checked`.) -/
def u_from_ctx (w : Nat) (src : Bytes) (le : Bool) : Nat :=
  let data := bytesToNatLE (src.take w)
  if le then data else swap_bytes w data

/-- `TryFromCtx::try_from_ctx` from `from_ctx_impl!`, unsigned case: bounds
check, then delegate to `FromCtx::from_ctx` on the sub-slice
`&src[offset..offset + w]`. -/
def u_try_from_ctx (w : Nat) (src : Bytes) (offset : Nat) (le : Bool) :
    Except Error Nat :=
  if offset + w > src.length then
    .error (.BadRange offset (offset + w) src.length)
  else
    .ok (u_from_ctx w ((src.drop offset).take w) le)

/-- `TryIntoCtx::try_into_ctx` from `into_ctx_impl!`, unsigned case: bounds
check, then delegate to `IntoCtx::into_ctx` on the sub-slice
`&mut dst[offset..offset + w]`; the re-spliced buffer models the in-place
mutation, and the untouched `dst` is returned alongside the error on
failure. -/
def u_try_into_ctx (w n : Nat) (dst : Bytes) (offset : Nat) (le : Bool) :
    Except Error Unit × Bytes :=
  if offset + w > dst.length then
    (.error (.BadRange offset (offset + w) dst.length), dst)
  else
    (.ok (),
      dst.take offset ++ u_into_ctx w n ((dst.drop offset).take w) le
        ++ dst.drop (offset + w))

/-- The two's-complement `w`-byte bit pattern of a signed value: the effect of
`transmute::<iN, uN>` composed with the signed value's byte image. -/
def toUnsigned (w : Nat) (i : Int) : Nat :=
  (i % ((2 : Int) ^ (8 * w))).toNat

/-- The `as $typ` cast of an unsigned `w`-byte pattern back to the signed
type: two's-complement reinterpretation. -/
def toSigned (w : Nat) (n : Nat) : Int :=
  if n < 2 ^ (8 * w - 1) then (n : Int) else (n : Int) - 2 ^ (8 * w)

/-- `FromCtx::from_ctx` for the signed types: the macro body loads into the
matching unsigned type (`signed_to_unsigned!`), endian-transforms, and casts
`as $typ`. -/
def i_from_ctx (w : Nat) (src : Bytes) (le : Bool) : Int :=
  toSigned w (u_from_ctx w src le)

/-- `TryFromCtx::try_from_ctx` for the signed types: bounds check, then
delegate to `FromCtx::from_ctx` on `&src[offset..offset + w]`. -/
def i_try_from_ctx (w : Nat) (src : Bytes) (offset : Nat) (le : Bool) :
    Except Error Int :=
  if offset + w > src.length then
    .error (.BadRange offset (offset + w) src.length)
  else
    .ok (i_from_ctx w ((src.drop offset).take w) le)

/-- `IntoCtx::into_ctx` for the signed types: `to_le`/`to_be` on a signed
value permutes the bytes of its two's-complement pattern, so the stored image
is the unsigned write of that pattern. -/
def i_into_ctx (w : Nat) (i : Int) (dst : Bytes) (le : Bool) : Bytes :=
  u_into_ctx w (toUnsigned w i) dst le

/-- `TryIntoCtx::try_into_ctx` for the signed types: the macro body is the
same bounds check and delegation as the unsigned case, applied to the
two's-complement pattern. -/
def i_try_into_ctx (w : Nat) (i : Int) (dst : Bytes) (offset : Nat)
    (le : Bool) : Except Error Unit × Bytes :=
  u_try_into_ctx w (toUnsigned w i) dst offset le

/-- `from_ctx_float_impl!` for `f32`: identical to the `u32` load followed by
a bit-for-bit `transmute` into the float type; the float is represented here
by its IEEE-754 bit pattern, on which no arithmetic is ever performed. -/
def f32_from_ctx (src : Bytes) (le : Bool) : Nat := u_from_ctx 4 src le

/-- `from_ctx_float_impl!` for `f64` (bit-pattern representation). -/
def f64_from_ctx (src : Bytes) (le : Bool) : Nat := u_from_ctx 8 src le

/-- `TryFromCtx` for `f32` from `from_ctx_float_impl!`. -/
def f32_try_from_ctx (src : Bytes) (offset : Nat) (le : Bool) :
    Except Error Nat := u_try_from_ctx 4 src offset le

/-- `TryFromCtx` for `f64` from `from_ctx_float_impl!`. -/
def f64_try_from_ctx (src : Bytes) (offset : Nat) (le : Bool) :
    Except Error Nat := u_try_from_ctx 8 src offset le

/-- `into_ctx_float_impl!` for `f32`: `transmute::<f32, u32>` then the
unsigned write of the bit pattern. -/
def f32_try_into_ctx (bits : Nat) (dst : Bytes) (offset : Nat) (le : Bool) :
    Except Error Unit × Bytes := u_try_into_ctx 4 bits dst offset le

/-- `into_ctx_float_impl!` for `f64` (bit-pattern representation). -/
def f64_try_into_ctx (bits : Nat) (dst : Bytes) (offset : Nat) (le : Bool) :
    Except Error Unit × Bytes := u_try_into_ctx 8 bits dst offset le

/-- `TryRefFromCtx for [u8]`: bounds check, then the borrowed sub-range
`&b[offset..offset + count]`. -/
def bytes_try_ref_from_ctx (b : Bytes) (offset count : Nat) :
    Except Error Bytes :=
  if offset + count > b.length then
    .error (.BadRange offset (offset + count) b.length)
  else
    .ok ((b.drop offset).take count)

/-- Continuation byte test of Rust's UTF-8 validator: `0x80..=0xBF`. -/
def utf8Cont (b : Nat) : Bool := decide (0x80 ≤ b) && decide (b < 0xC0)

/-- Validity predicate of `core::str::from_utf8`: the byte list is a
well-formed UTF-8 encoding of Unicode scalar values (no overlong forms, no
surrogates, no code points beyond U+10FFFF). -/
def utf8Valid : List Nat → Bool
  | [] => true
  | b :: rest =>
    if b < 0x80 then utf8Valid rest
    else if b < 0xC2 then false
    else if b < 0xE0 then
      match rest with
      | b1 :: r => utf8Cont b1 && utf8Valid r
      | [] => false
    else if b < 0xF0 then
      match rest with
      | b1 :: b2 :: r =>
        (if b = 0xE0 then decide (0xA0 ≤ b1) && decide (b1 < 0xC0)
         else if b = 0xED then decide (0x80 ≤ b1) && decide (b1 < 0xA0)
         else utf8Cont b1) && utf8Cont b2 && utf8Valid r
      | _ => false
    else if b < 0xF5 then
      match rest with
      | b1 :: b2 :: b3 :: r =>
        (if b = 0xF0 then decide (0x90 ≤ b1) && decide (b1 < 0xC0)
         else if b = 0xF4 then decide (0x80 ≤ b1) && decide (b1 < 0x90)
         else utf8Cont b1) && utf8Cont b2 && utf8Cont b3 && utf8Valid r
      | _ => false
    else false

/-- `TryRefFromCtx for str`: bounds check, slice, then `str::from_utf8` with
the failure mapped to bad input carrying the requested range and the slice's
length.  The produced `&str` is modelled by its byte list. -/
def str_try_ref_from_ctx (b : Bytes) (offset count : Nat) :
    Except Error Bytes :=
  if offset + count > b.length then
    .error (.BadRange offset (offset + count) b.length)
  else
    let bytes := (b.drop offset).take count
    if utf8Valid bytes then .ok bytes
    else .error (.BadInput offset (offset + count) bytes.length invalidUtf8Msg)

/-- The `while byte != delimiter && i < len { byte = bytes[i]; i += 1; }` loop
of `get_str_delimiter_offset`, with the state `(byte, i)` threaded explicitly.
The fuel argument only bounds the iteration count; callers pass
`bytes.length + 1 - i`, which exceeds the maximal number of iterations
(`bytes.length - i`), so the loop always exits through its own condition. -/
def delimiterLoop (bytes : Bytes) (delimiter : Nat) :
    Nat → Nat → Nat → Nat × Nat
  | 0, byte, i => (byte, i)
  | fuel + 1, byte, i =>
    if byte ≠ delimiter ∧ i < bytes.length then
      delimiterLoop bytes delimiter fuel (bytes.getD i 0) (i + 1)
    else (byte, i)

/-- `get_str_delimiter_offset(bytes, idx, delimiter)`: early-return `idx` when
the byte already is the delimiter; otherwise run the scan loop, then drop the
terminator (`i -= 1`) unless the scan stopped at the end on a non-delimiter
byte.  Total version; the `bytes[i]` panics are modelled by
`get_str_delimiter_offset_checked`. -/
def get_str_delimiter_offset (bytes : Bytes) (idx delimiter : Nat) : Nat :=
  let len := bytes.length
  let byte := bytes.getD idx 0
  if byte = delimiter then idx
  else
    let r := delimiterLoop bytes delimiter (len + 1 - idx) byte idx
    let i := r.2
    if i < len ∨ bytes.getD (i - 1) 0 = delimiter then i - 1 else i

/-- `TryFromCtx<(usize, StrCtx)> for &str`: bad offset when `offset >= len`,
otherwise scan for the delimiter, return the empty string on a zero count,
else slice and validate UTF-8. -/
def str_try_from_ctx (src : Bytes) (offset delimiter : Nat) :
    Except Error Bytes :=
  let len := src.length
  if offset ≥ len then .error (.BadOffset offset)
  else
    let delimiter_offset := get_str_delimiter_offset src offset delimiter
    let count := delimiter_offset - offset
    if count = 0 then .ok []
    else
      let bytes := (src.drop offset).take count
      if utf8Valid bytes then .ok bytes
      else
        .error (.BadInput offset (offset + count) bytes.length invalidUtf8Msg)

/-- `TryIntoCtx<(usize, DefaultCtx)> for &'a [u8]`: check
`offset + src_len > dst_len`, then `copy_nonoverlapping` the `self` bytes to
`dst + offset`; on failure the untouched `dst` is returned with the error. -/
def bytes_try_into_ctx (self dst : Bytes) (uoffset : Nat) :
    Except Error Unit × Bytes :=
  if uoffset + self.length > dst.length then
    (.error (.BadRange uoffset (uoffset + self.length) dst.length), dst)
  else
    (.ok (), dst.take uoffset ++ self ++ dst.drop (uoffset + self.length))

/-- `TryIntoCtx<(usize, StrCtx)> for &str`: encode to raw bytes and delegate
to the `&[u8]` write path. -/
def str_try_into_ctx (s dst : Bytes) (offset : Nat) :
    Except Error Unit × Bytes :=
  bytes_try_into_ctx s dst offset

/-- Panic-aware model of the slicing expression `&b[start..stop]`: `none`
when the range is out of bounds (a Rust panic), the sub-range otherwise. -/
def slice? (b : Bytes) (start stop : Nat) : Option Bytes :=
  if start ≤ stop ∧ stop ≤ b.length then
    some ((b.drop start).take (stop - start))
  else none

/-- Panic-aware `FromCtx::from_ctx` (unsigned): `none` models the failure of
the `assert!(src.len() >= size)` guarding the raw `copy_nonoverlapping`. -/
def u_from_ctx_checked (w : Nat) (src : Bytes) (le : Bool) : Option Nat :=
  if w ≤ src.length then some (u_from_ctx w src le) else none

/-- Panic-aware `TryFromCtx::try_from_ctx` (unsigned): the bounds check,
then the slice and the delegated infallible read with their panic cases
propagated as `none`. -/
def u_try_from_ctx_checked (w : Nat) (src : Bytes) (offset : Nat)
    (le : Bool) : Option (Except Error Nat) :=
  if offset + w > src.length then
    some (.error (.BadRange offset (offset + w) src.length))
  else
    match slice? src offset (offset + w) with
    | none => none
    | some sub =>
      match u_from_ctx_checked w sub le with
      | none => none
      | some v => some (.ok v)

/-- Panic-aware `IntoCtx::into_ctx` (unsigned): `none` models the failure of
the `assert!(dst.len() >= size)` in `into_ctx` and in `write_into!`. -/
def u_into_ctx_checked (w n : Nat) (dst : Bytes) (le : Bool) :
    Option Bytes :=
  if w ≤ dst.length then some (u_into_ctx w n dst le) else none

/-- Panic-aware `TryIntoCtx::try_into_ctx` (unsigned): the bounds check, then
the mutable slice and the delegated infallible write with their panic cases
propagated as `none`. -/
def u_try_into_ctx_checked (w n : Nat) (dst : Bytes) (offset : Nat)
    (le : Bool) : Option (Except Error Unit × Bytes) :=
  if offset + w > dst.length then
    some (.error (.BadRange offset (offset + w) dst.length), dst)
  else
    match slice? dst offset (offset + w) with
    | none => none
    | some sub =>
      match u_into_ctx_checked w n sub le with
      | none => none
      | some sub2 =>
        some (.ok (), dst.take offset ++ sub2 ++ dst.drop (offset + w))

/-- Panic-aware `TryRefFromCtx for [u8]`: the bounds check, then the slice
with its panic case propagated as `none`. -/
def bytes_try_ref_from_ctx_checked (b : Bytes) (offset count : Nat) :
    Option (Except Error Bytes) :=
  if offset + count > b.length then
    some (.error (.BadRange offset (offset + count) b.length))
  else
    match slice? b offset (offset + count) with
    | none => none
    | some sub => some (.ok sub)

/-- Panic-aware `TryRefFromCtx for str`: the bounds check, then the slice
with its panic case propagated as `none`, then the infallible UTF-8
validation. -/
def str_try_ref_from_ctx_checked (b : Bytes) (offset count : Nat) :
    Option (Except Error Bytes) :=
  if offset + count > b.length then
    some (.error (.BadRange offset (offset + count) b.length))
  else
    match slice? b offset (offset + count) with
    | none => none
    | some bytes =>
      some (if utf8Valid bytes then .ok bytes
        else
          .error (.BadInput offset (offset + count) bytes.length
            invalidUtf8Msg))

/-- Panic-aware `TryIntoCtx for &'a [u8]`: after the range check the raw
`copy_nonoverlapping` writes `self.length` bytes at `dst + offset`, in bounds
exactly when `offset + self.length ≤ dst.length`. -/
def bytes_try_into_ctx_checked (self dst : Bytes) (uoffset : Nat) :
    Option (Except Error Unit × Bytes) :=
  if uoffset + self.length > dst.length then
    some (.error (.BadRange uoffset (uoffset + self.length) dst.length), dst)
  else if uoffset + self.length ≤ dst.length then
    some (.ok (), dst.take uoffset ++ self ++ dst.drop (uoffset + self.length))
  else none

/-- Panic-aware scan loop: the `bytes[i]` access inside the loop body is
modelled by `bytes[i]?`, `none` standing for the out-of-bounds panic. -/
def delimiterLoopChecked (bytes : Bytes) (delimiter : Nat) :
    Nat → Nat → Nat → Option (Nat × Nat)
  | 0, byte, i => some (byte, i)
  | fuel + 1, byte, i =>
    if byte ≠ delimiter ∧ i < bytes.length then
      match bytes[i]? with
      | none => none
      | some b2 => delimiterLoopChecked bytes delimiter fuel b2 (i + 1)
    else some (byte, i)

/-- Panic-aware `get_str_delimiter_offset`: the initial `bytes[idx]`, the
loop accesses, and the short-circuited `bytes[i - 1]` of the final test are
all modelled by `bytes[·]?`. -/
def get_str_delimiter_offset_checked (bytes : Bytes) (idx delimiter : Nat) :
    Option Nat :=
  let len := bytes.length
  match bytes[idx]? with
  | none => none
  | some byte =>
    if byte = delimiter then some idx
    else
      match delimiterLoopChecked bytes delimiter (len + 1 - idx) byte idx with
      | none => none
      | some r =>
        let i := r.2
        if i < len then some (i - 1)
        else
          match bytes[i - 1]? with
          | none => none
          | some last => if last = delimiter then some (i - 1) else some i

/-- Panic-aware `TryFromCtx<(usize, StrCtx)> for &str`: the guard, the scan
(with its indexing panics), and the slice `&src[offset..offset + count]` with
its panic case propagated as `none`. -/
def str_try_from_ctx_checked (src : Bytes) (offset delimiter : Nat) :
    Option (Except Error Bytes) :=
  let len := src.length
  if offset ≥ len then some (.error (.BadOffset offset))
  else
    match get_str_delimiter_offset_checked src offset delimiter with
    | none => none
    | some delimiter_offset =>
      let count := delimiter_offset - offset
      if count = 0 then some (.ok [])
      else
        match slice? src offset (offset + count) with
        | none => none
        | some bytes =>
          some (if utf8Valid bytes then .ok bytes
            else
              .error (.BadInput offset (offset + count) bytes.length
                invalidUtf8Msg))

/-- Follows the spec's words for the fallible-produce contract (§4.1):
validate the range, then delegate to the infallible produce on the validated
sub-range.  Used only to compare against `u_try_from_ctx`. -/
def spec_validate_then_delegate (w : Nat) (src : Bytes) (offset : Nat)
    (le : Bool) : Except Error Nat :=
  if offset + w ≤ src.length then
    .ok (u_from_ctx w ((src.drop offset).take w) le)
  else
    .error (.BadRange offset (offset + w) src.length)

/-- Write an unsigned value with `try_into_ctx` at offset 0 into a zeroed
buffer of exactly its width, read it back with `try_from_ctx` at offset 0
with the same byte order, and get the value back. -/
abbrev roundTripU (w n : Nat) (le : Bool) : Prop :=
  (u_try_into_ctx w n (List.replicate w 0) 0 le).1 = .ok () ∧
  u_try_from_ctx w (u_try_into_ctx w n (List.replicate w 0) 0 le).2 0 le =
    .ok n

/-- The signed-type round trip through a zeroed buffer of exactly the
type's width. -/
abbrev roundTripI (w : Nat) (i : Int) (le : Bool) : Prop :=
  (i_try_into_ctx w i (List.replicate w 0) 0 le).1 = .ok () ∧
  i_try_from_ctx w (i_try_into_ctx w i (List.replicate w 0) 0 le).2 0 le =
    .ok i

/-- The `f32` round trip (IEEE-754 bit-pattern representation). -/
abbrev roundTripF32 (bits : Nat) (le : Bool) : Prop :=
  (f32_try_into_ctx bits (List.replicate 4 0) 0 le).1 = .ok () ∧
  f32_try_from_ctx (f32_try_into_ctx bits (List.replicate 4 0) 0 le).2 0 le =
    .ok bits

/-- The `f64` round trip (IEEE-754 bit-pattern representation). -/
abbrev roundTripF64 (bits : Nat) (le : Bool) : Prop :=
  (f64_try_into_ctx bits (List.replicate 8 0) 0 le).1 = .ok () ∧
  f64_try_from_ctx (f64_try_into_ctx bits (List.replicate 8 0) 0 le).2 0 le =
    .ok bits

/-- IEEE-754 bit pattern of `f32::MIN` (= -3.40282347e38). -/
def f32_min_bits : Nat := 0xFF7FFFFF

/-- IEEE-754 bit pattern of `f32::MAX` (= 3.40282347e38). -/
def f32_max_bits : Nat := 0x7F7FFFFF

/-- IEEE-754 bit pattern of `f64::MIN` (= -1.7976931348623157e308). -/
def f64_min_bits : Nat := 0xFFEFFFFFFFFFFFFF

/-- IEEE-754 bit pattern of `f64::MAX` (= 1.7976931348623157e308). -/
def f64_max_bits : Nat := 0x7FEFFFFFFFFFFFFF

instance {ε α : Type _} [DecidableEq ε] [DecidableEq α] :
    DecidableEq (Except ε α) := fun x y =>
  match x, y with
  | .error e, .error f => decidable_of_iff (e = f) (by simp)
  | .ok a, .ok b => decidable_of_iff (a = b) (by simp)
  | .error _, .ok _ => isFalse fun h => Except.noConfusion h
  | .ok _, .error _ => isFalse fun h => Except.noConfusion h

theorem natToBytesLE_length (w n : Nat) : (natToBytesLE w n).length = w := by
  induction w generalizing n with
  | zero => rfl
  | succ w ih => simp [natToBytesLE, ih]

theorem natToBytesLE_lt (w n : Nat) : ∀ b ∈ natToBytesLE w n, b < 256 := by
  induction w generalizing n with
  | zero => simp [natToBytesLE]
  | succ w ih =>
    simp only [natToBytesLE, List.mem_cons]
    rintro b (rfl | hb)
    · exact Nat.mod_lt _ (by norm_num)
    · exact ih (n / 256) b hb

theorem bytesToNatLE_natToBytesLE (w n : Nat) :
    bytesToNatLE (natToBytesLE w n) = n % 256 ^ w := by
  induction w generalizing n with
  | zero => simp [natToBytesLE, bytesToNatLE, Nat.mod_one]
  | succ w ih =>
    simp only [natToBytesLE, bytesToNatLE, ih]
    rw [pow_succ', Nat.mod_mul, Nat.mod_mod_of_dvd _ dvd_rfl]

theorem bytesToNatLE_append (bs cs : Bytes) :
    bytesToNatLE (bs ++ cs) =
      bytesToNatLE bs + 256 ^ bs.length * bytesToNatLE cs := by
  induction bs with
  | nil => simp [bytesToNatLE]
  | cons b bs ih =>
    simp only [List.cons_append, bytesToNatLE, List.append_eq]
    rw [ih]
    simp only [List.length_cons]
    ring

theorem swap_bytes_eq (w n : Nat) :
    swap_bytes w n = bytesToNatLE ((natToBytesLE w n).reverse) := by
  induction w generalizing n with
  | zero => rfl
  | succ w ih =>
    simp only [natToBytesLE, List.reverse_cons, bytesToNatLE_append,
      swap_bytes, List.length_reverse, natToBytesLE_length, bytesToNatLE]
    rw [← ih, Nat.mod_mod_of_dvd _ dvd_rfl]
    ring

theorem natToBytesLE_bytesToNatLE (bs : Bytes) :
    natToBytesLE bs.length (bytesToNatLE bs) = bs.map (· % 256) := by
  induction bs with
  | nil => rfl
  | cons b bs ih =>
    simp only [List.length_cons, natToBytesLE, bytesToNatLE, List.map_cons]
    have h1 : (b % 256 + 256 * bytesToNatLE bs) % 256 = b % 256 := by
      rw [Nat.add_mul_mod_self_left, Nat.mod_mod]
    have h2 : (b % 256 + 256 * bytesToNatLE bs) / 256 = bytesToNatLE bs := by
      rw [Nat.add_mul_div_left _ _ (by norm_num : 0 < 256),
        Nat.div_eq_of_lt (Nat.mod_lt _ (by norm_num)), Nat.zero_add]
    rw [h1, h2, ih]

theorem natToBytesLE_bytesToNatLE_of_lt (bs : Bytes)
    (h : ∀ b ∈ bs, b < 256) :
    natToBytesLE bs.length (bytesToNatLE bs) = bs := by
  rw [natToBytesLE_bytesToNatLE]
  calc bs.map (· % 256) = bs.map id := by
        exact List.map_congr_left fun b hb => Nat.mod_eq_of_lt (h b hb)
    _ = bs := List.map_id bs

theorem pow256_eq (w : Nat) : 256 ^ w = 2 ^ (8 * w) := by
  rw [pow_mul]
  norm_num

theorem natToBytesLE_of_length (w : Nat) (bs : Bytes) (hlen : bs.length = w)
    (hlt : ∀ b ∈ bs, b < 256) :
    natToBytesLE w (bytesToNatLE bs) = bs := by
  subst hlen
  exact natToBytesLE_bytesToNatLE_of_lt bs hlt

theorem encodeBytes_true (w n : Nat) :
    encodeBytes w n true = natToBytesLE w n := rfl

theorem encodeBytes_false (w n : Nat) :
    encodeBytes w n false = (natToBytesLE w n).reverse := rfl

theorem encodeBytes_length (w n : Nat) (le : Bool) :
    (encodeBytes w n le).length = w := by
  cases le <;>
    simp [encodeBytes_true, encodeBytes_false, natToBytesLE_length,
      List.length_reverse]

theorem u_from_ctx_true (w : Nat) (src : Bytes) :
    u_from_ctx w src true = bytesToNatLE (src.take w) := rfl

theorem u_from_ctx_false (w : Nat) (src : Bytes) :
    u_from_ctx w src false = swap_bytes w (bytesToNatLE (src.take w)) := rfl

theorem natToBytesLE_round (w n : Nat) :
    natToBytesLE w (bytesToNatLE ((natToBytesLE w n).reverse)) =
      (natToBytesLE w n).reverse := by
  have hlen : ((natToBytesLE w n).reverse).length = w := by
    rw [List.length_reverse, natToBytesLE_length]
  have hlt : ∀ b ∈ (natToBytesLE w n).reverse, b < 256 := fun b hb =>
    natToBytesLE_lt w n b (List.mem_reverse.mp hb)
  exact natToBytesLE_of_length w _ hlen hlt

theorem decode_encode_le (w n : Nat) (tail : Bytes) :
    u_from_ctx w (natToBytesLE w n ++ tail) true = n % 256 ^ w := by
  rw [u_from_ctx_true, List.take_left' (natToBytesLE_length w n),
    bytesToNatLE_natToBytesLE]

theorem decode_encode_be (w n : Nat) (tail : Bytes) :
    u_from_ctx w ((natToBytesLE w n).reverse ++ tail) false = n % 256 ^ w := by
  rw [u_from_ctx_false,
    List.take_left'
      (by rw [List.length_reverse, natToBytesLE_length] :
        ((natToBytesLE w n).reverse).length = w),
    swap_bytes_eq, natToBytesLE_round, List.reverse_reverse,
    bytesToNatLE_natToBytesLE]

theorem decode_le_as_be (w n : Nat) (tail : Bytes) :
    u_from_ctx w (natToBytesLE w n ++ tail) false =
      swap_bytes w (n % 256 ^ w) := by
  rw [u_from_ctx_false, List.take_left' (natToBytesLE_length w n),
    bytesToNatLE_natToBytesLE]

theorem swap_bytes_eq_self_iff (w n : Nat) (h : n < 256 ^ w) :
    swap_bytes w n = n ↔ (natToBytesLE w n).reverse = natToBytesLE w n := by
  constructor
  · intro hs
    have hval : bytesToNatLE ((natToBytesLE w n).reverse) = n := by
      rw [← swap_bytes_eq, hs]
    have h2 := natToBytesLE_round w n
    rw [hval] at h2
    have h3 : natToBytesLE w n = natToBytesLE w (n % 256 ^ w) := by
      rw [Nat.mod_eq_of_lt h]
    exact h2.symm
  · intro hp
    rw [swap_bytes_eq, hp, bytesToNatLE_natToBytesLE, Nat.mod_eq_of_lt h]

theorem delimiterLoop_succ (bytes : Bytes) (d fuel byte i : Nat) :
    delimiterLoop bytes d (fuel + 1) byte i =
      if byte ≠ d ∧ i < bytes.length then
        delimiterLoop bytes d fuel (bytes.getD i 0) (i + 1)
      else (byte, i) := rfl

theorem delimiterLoopChecked_succ (bytes : Bytes) (d fuel byte i : Nat) :
    delimiterLoopChecked bytes d (fuel + 1) byte i =
      if byte ≠ d ∧ i < bytes.length then
        match bytes[i]? with
        | none => none
        | some b2 => delimiterLoopChecked bytes d fuel b2 (i + 1)
      else some (byte, i) := rfl

theorem delimiterLoop_ge (bytes : Bytes) (d : Nat) :
    ∀ (fuel byte i : Nat), i ≤ (delimiterLoop bytes d fuel byte i).2 := by
  intro fuel
  induction fuel with
  | zero => intro byte i; exact Nat.le_refl i
  | succ fuel ih =>
    intro byte i
    unfold delimiterLoop
    by_cases h : byte ≠ d ∧ i < bytes.length
    · rw [if_pos h]
      exact Nat.le_trans (Nat.le_succ i) (ih _ _)
    · rw [if_neg h]

theorem delimiterLoop_le (bytes : Bytes) (d : Nat) :
    ∀ (fuel byte i : Nat), i ≤ bytes.length →
      (delimiterLoop bytes d fuel byte i).2 ≤ bytes.length := by
  intro fuel
  induction fuel with
  | zero => intro byte i hi; exact hi
  | succ fuel ih =>
    intro byte i hi
    unfold delimiterLoop
    by_cases h : byte ≠ d ∧ i < bytes.length
    · rw [if_pos h]
      exact ih _ _ h.2
    · rw [if_neg h]
      exact hi

theorem delimiterLoopChecked_eq (bytes : Bytes) (d : Nat) :
    ∀ (fuel byte i : Nat),
      delimiterLoopChecked bytes d fuel byte i =
        some (delimiterLoop bytes d fuel byte i) := by
  intro fuel
  induction fuel with
  | zero => intro byte i; rfl
  | succ fuel ih =>
    intro byte i
    unfold delimiterLoopChecked delimiterLoop
    by_cases h : byte ≠ d ∧ i < bytes.length
    · rw [if_pos h, if_pos h, List.getElem?_eq_getElem h.2,
        ← List.getD_eq_getElem bytes 0 h.2]
      exact ih _ _
    · rw [if_neg h, if_neg h]

theorem get_str_delimiter_offset_ge (bytes : Bytes) (idx d : Nat)
    (h : idx < bytes.length) :
    idx ≤ get_str_delimiter_offset bytes idx d := by
  unfold get_str_delimiter_offset
  by_cases hb : bytes.getD idx 0 = d
  · rw [if_pos hb]
  · rw [if_neg hb]
    have hstep :
        delimiterLoop bytes d (bytes.length + 1 - idx) (bytes.getD idx 0)
          idx =
        delimiterLoop bytes d (bytes.length - idx) (bytes.getD idx 0)
          (idx + 1) := by
      have hfuel : bytes.length + 1 - idx = (bytes.length - idx) + 1 := by
        omega
      rw [hfuel, delimiterLoop_succ, if_pos ⟨hb, h⟩]
    have hge := delimiterLoop_ge bytes d (bytes.length - idx)
      (bytes.getD idx 0) (idx + 1)
    rw [hstep]
    by_cases hlt :
        (delimiterLoop bytes d (bytes.length - idx) (bytes.getD idx 0)
          (idx + 1)).2 < bytes.length ∨
        bytes.getD
          ((delimiterLoop bytes d (bytes.length - idx) (bytes.getD idx 0)
            (idx + 1)).2 - 1) 0 = d
    · rw [if_pos hlt]
      omega
    · rw [if_neg hlt]
      omega

theorem get_str_delimiter_offset_le (bytes : Bytes) (idx d : Nat)
    (h : idx < bytes.length) :
    get_str_delimiter_offset bytes idx d ≤ bytes.length := by
  unfold get_str_delimiter_offset
  by_cases hb : bytes.getD idx 0 = d
  · rw [if_pos hb]
    omega
  · rw [if_neg hb]
    have hle := delimiterLoop_le bytes d (bytes.length + 1 - idx)
      (bytes.getD idx 0) idx (Nat.le_of_lt h)
    by_cases hlt :
        (delimiterLoop bytes d (bytes.length + 1 - idx) (bytes.getD idx 0)
          idx).2 < bytes.length ∨
        bytes.getD
          ((delimiterLoop bytes d (bytes.length + 1 - idx) (bytes.getD idx 0)
            idx).2 - 1) 0 = d
    · rw [if_pos hlt]
      omega
    · rw [if_neg hlt]
      exact hle

theorem slice?_eq (b : Bytes) (offset count : Nat)
    (h : offset + count ≤ b.length) :
    slice? b offset (offset + count) = some ((b.drop offset).take count) := by
  unfold slice?
  rw [if_pos ⟨Nat.le_add_right _ _, h⟩, Nat.add_sub_cancel_left]

theorem sub_slice_length (b : Bytes) (offset count : Nat)
    (h : offset + count ≤ b.length) :
    ((b.drop offset).take count).length = count := by
  rw [List.length_take, List.length_drop]
  omega

theorem u_try_from_ctx_checked_eq (w : Nat) (src : Bytes) (offset : Nat)
    (le : Bool) :
    u_try_from_ctx_checked w src offset le =
      some (u_try_from_ctx w src offset le) := by
  unfold u_try_from_ctx_checked u_try_from_ctx
  by_cases h : offset + w > src.length
  · simp only [if_pos h]
  · have hle : offset + w ≤ src.length := by omega
    simp only [if_neg h, slice?_eq src offset w hle]
    unfold u_from_ctx_checked
    rw [if_pos (le_of_eq (sub_slice_length src offset w hle).symm)]

theorem u_try_into_ctx_checked_eq (w n : Nat) (dst : Bytes) (offset : Nat)
    (le : Bool) :
    u_try_into_ctx_checked w n dst offset le =
      some (u_try_into_ctx w n dst offset le) := by
  unfold u_try_into_ctx_checked u_try_into_ctx
  by_cases h : offset + w > dst.length
  · simp only [if_pos h]
  · have hle : offset + w ≤ dst.length := by omega
    simp only [if_neg h, slice?_eq dst offset w hle]
    unfold u_into_ctx_checked
    rw [if_pos (le_of_eq (sub_slice_length dst offset w hle).symm)]

theorem bytes_try_ref_from_ctx_checked_eq (b : Bytes) (offset count : Nat) :
    bytes_try_ref_from_ctx_checked b offset count =
      some (bytes_try_ref_from_ctx b offset count) := by
  unfold bytes_try_ref_from_ctx_checked bytes_try_ref_from_ctx
  by_cases h : offset + count > b.length
  · simp only [if_pos h]
  · have hle : offset + count ≤ b.length := by omega
    simp only [if_neg h, slice?_eq b offset count hle]

theorem str_try_ref_from_ctx_checked_eq (b : Bytes) (offset count : Nat) :
    str_try_ref_from_ctx_checked b offset count =
      some (str_try_ref_from_ctx b offset count) := by
  unfold str_try_ref_from_ctx_checked str_try_ref_from_ctx
  by_cases h : offset + count > b.length
  · simp only [if_pos h]
  · have hle : offset + count ≤ b.length := by omega
    simp only [if_neg h, slice?_eq b offset count hle]

theorem bytes_try_into_ctx_checked_eq (self dst : Bytes) (uoffset : Nat) :
    bytes_try_into_ctx_checked self dst uoffset =
      some (bytes_try_into_ctx self dst uoffset) := by
  unfold bytes_try_into_ctx_checked bytes_try_into_ctx
  by_cases h : uoffset + self.length > dst.length
  · simp only [if_pos h]
  · have hle : uoffset + self.length ≤ dst.length := by omega
    simp only [if_neg h, if_pos hle]

theorem get_str_delimiter_offset_checked_eq (bytes : Bytes) (idx d : Nat)
    (h : idx < bytes.length) :
    get_str_delimiter_offset_checked bytes idx d =
      some (get_str_delimiter_offset bytes idx d) := by
  have hidx : bytes[idx]? = some (bytes.getD idx 0) := by
    rw [List.getElem?_eq_getElem h, List.getD_eq_getElem bytes 0 h]
  unfold get_str_delimiter_offset_checked get_str_delimiter_offset
  simp only [hidx]
  by_cases hb : bytes.getD idx 0 = d
  · simp only [if_pos hb]
  · simp only [if_neg hb, delimiterLoopChecked_eq bytes d]
    set r := delimiterLoop bytes d (bytes.length + 1 - idx)
      (bytes.getD idx 0) idx with hr
    have hrle : r.2 ≤ bytes.length :=
      delimiterLoop_le bytes d _ _ idx (Nat.le_of_lt h)
    by_cases hlt : r.2 < bytes.length
    · simp only [if_pos hlt, if_pos (Or.inl hlt)]
    · have hlast : r.2 - 1 < bytes.length := by omega
      have hget : bytes[r.2 - 1]? = some (bytes.getD (r.2 - 1) 0) := by
        rw [List.getElem?_eq_getElem hlast, List.getD_eq_getElem bytes 0 hlast]
      simp only [if_neg hlt, hget]
      by_cases hd : bytes.getD (r.2 - 1) 0 = d
      · simp only [if_pos hd, if_pos (Or.inr hd)]
      · have hor : ¬(r.2 < bytes.length ∨ bytes.getD (r.2 - 1) 0 = d) := by
          intro hc
          rcases hc with hc | hc
          · exact hlt hc
          · exact hd hc
        simp only [if_neg hd, if_neg hor]

theorem str_try_from_ctx_checked_eq (src : Bytes) (offset d : Nat) :
    str_try_from_ctx_checked src offset d =
      some (str_try_from_ctx src offset d) := by
  unfold str_try_from_ctx_checked str_try_from_ctx
  by_cases hoff : offset ≥ src.length
  · simp only [if_pos hoff]
  · have hlt : offset < src.length := by omega
    simp only [if_neg hoff,
      get_str_delimiter_offset_checked_eq src offset d hlt]
    set dOff := get_str_delimiter_offset src offset d with hd
    by_cases hc : dOff - offset = 0
    · simp only [if_pos hc]
    · have hge : offset ≤ dOff := get_str_delimiter_offset_ge src offset d hlt
      have hle : dOff ≤ src.length :=
        get_str_delimiter_offset_le src offset d hlt
      have hsl : offset + (dOff - offset) ≤ src.length := by omega
      simp only [if_neg hc, slice?_eq src offset (dOff - offset) hsl]

theorem u_try_from_ctx_ok_iff (w : Nat) (buf : Bytes) (offset : Nat)
    (le : Bool) :
    (∃ x, u_try_from_ctx w buf offset le = .ok x) ↔
      offset + w ≤ buf.length := by
  unfold u_try_from_ctx
  by_cases h : offset + w > buf.length
  · rw [if_pos h]
    constructor
    · rintro ⟨x, hx⟩
      exact absurd hx (by simp)
    · intro hle
      omega
  · rw [if_neg h]
    constructor
    · intro _
      omega
    · intro _
      exact ⟨_, rfl⟩

theorem u_try_from_ctx_err (w : Nat) (buf : Bytes) (offset : Nat) (le : Bool)
    (h : buf.length < offset + w) :
    u_try_from_ctx w buf offset le =
      .error (.BadRange offset (offset + w) buf.length) := by
  unfold u_try_from_ctx
  rw [if_pos (by omega)]

theorem i_try_from_ctx_ok_iff (w : Nat) (buf : Bytes) (offset : Nat)
    (le : Bool) :
    (∃ x, i_try_from_ctx w buf offset le = .ok x) ↔
      offset + w ≤ buf.length := by
  unfold i_try_from_ctx
  by_cases h : offset + w > buf.length
  · rw [if_pos h]
    constructor
    · rintro ⟨x, hx⟩
      exact absurd hx (by simp)
    · intro hle
      omega
  · rw [if_neg h]
    constructor
    · intro _
      omega
    · intro _
      exact ⟨_, rfl⟩

theorem i_try_from_ctx_err (w : Nat) (buf : Bytes) (offset : Nat) (le : Bool)
    (h : buf.length < offset + w) :
    i_try_from_ctx w buf offset le =
      .error (.BadRange offset (offset + w) buf.length) := by
  unfold i_try_from_ctx
  rw [if_pos (by omega)]

theorem u_try_into_ctx_ok_iff (w n : Nat) (buf : Bytes) (offset : Nat)
    (le : Bool) :
    (u_try_into_ctx w n buf offset le).1 = .ok () ↔
      offset + w ≤ buf.length := by
  unfold u_try_into_ctx
  by_cases h : offset + w > buf.length
  · simp only [if_pos h]
    constructor
    · intro hx
      exact absurd hx (by simp)
    · intro hle
      omega
  · simp only [if_neg h]
    constructor
    · intro _
      omega
    · intro _
      trivial

theorem u_try_into_ctx_err (w n : Nat) (buf : Bytes) (offset : Nat)
    (le : Bool) (h : buf.length < offset + w) :
    u_try_into_ctx w n buf offset le =
      (.error (.BadRange offset (offset + w) buf.length), buf) := by
  unfold u_try_into_ctx
  rw [if_pos (by omega)]

/-- Claim C4: the fallible tier never panics.  In the panic-aware models of
`try_from_ctx`, `try_into_ctx`, `try_ref_from_ctx` (read and write, numeric,
raw bytes, fixed-length and delimited text), where `none` stands for a panic
of an `assert!` or of a slice access, every operation returns `some` of the
structured result of the total model, for every source, destination, offset,
count, context and value; panics remain possible only in the infallible tier
(`u_from_ctx_checked`, `u_into_ctx_checked`) whose caller precondition is
violated. -/
theorem claim_C4_no_panic :
    ∀ (w n offset count d : Nat) (src dst self : Bytes) (le : Bool),
      u_try_from_ctx_checked w src offset le =
        some (u_try_from_ctx w src offset le) ∧
      u_try_into_ctx_checked w n dst offset le =
        some (u_try_into_ctx w n dst offset le) ∧
      bytes_try_ref_from_ctx_checked src offset count =
        some (bytes_try_ref_from_ctx src offset count) ∧
      str_try_ref_from_ctx_checked src offset count =
        some (str_try_ref_from_ctx src offset count) ∧
      bytes_try_into_ctx_checked self dst offset =
        some (bytes_try_into_ctx self dst offset) ∧
      str_try_from_ctx_checked src offset d =
        some (str_try_from_ctx src offset d) :=
  fun w n offset count d src dst self le =>
    ⟨u_try_from_ctx_checked_eq w src offset le,
     u_try_into_ctx_checked_eq w n dst offset le,
     bytes_try_ref_from_ctx_checked_eq src offset count,
     str_try_ref_from_ctx_checked_eq src offset count,
     bytes_try_into_ctx_checked_eq self dst offset,
     str_try_from_ctx_checked_eq src offset d⟩

/-- Claim C2: for any width `w`, buffer of length `n` and offset `o`, the
fallible numeric reads and writes (unsigned and signed alike) succeed iff
`o + w ≤ n`; otherwise they return bad range with range `o..o+w` and size
`n`, and a failed write returns the destination unmodified. -/
theorem claim_C2_bounds_enforcement :
    ∀ (w offset : Nat) (buf : Bytes) (le : Bool) (n : Nat) (v : Int),
      ((∃ x, u_try_from_ctx w buf offset le = .ok x) ↔
        offset + w ≤ buf.length) ∧
      (buf.length < offset + w →
        u_try_from_ctx w buf offset le =
          .error (.BadRange offset (offset + w) buf.length)) ∧
      ((∃ x, i_try_from_ctx w buf offset le = .ok x) ↔
        offset + w ≤ buf.length) ∧
      (buf.length < offset + w →
        i_try_from_ctx w buf offset le =
          .error (.BadRange offset (offset + w) buf.length)) ∧
      ((u_try_into_ctx w n buf offset le).1 = .ok () ↔
        offset + w ≤ buf.length) ∧
      (buf.length < offset + w →
        u_try_into_ctx w n buf offset le =
          (.error (.BadRange offset (offset + w) buf.length), buf)) ∧
      ((i_try_into_ctx w v buf offset le).1 = .ok () ↔
        offset + w ≤ buf.length) ∧
      (buf.length < offset + w →
        i_try_into_ctx w v buf offset le =
          (.error (.BadRange offset (offset + w) buf.length), buf)) :=
  fun w offset buf le n v =>
    ⟨u_try_from_ctx_ok_iff w buf offset le,
     u_try_from_ctx_err w buf offset le,
     i_try_from_ctx_ok_iff w buf offset le,
     i_try_from_ctx_err w buf offset le,
     u_try_into_ctx_ok_iff w n buf offset le,
     u_try_into_ctx_err w n buf offset le,
     u_try_into_ctx_ok_iff w (toUnsigned w v) buf offset le,
     u_try_into_ctx_err w (toUnsigned w v) buf offset le⟩

/-- Witness for C2 at a concrete out-of-bounds input: an 8-byte read at
offset 5 of a 12-byte buffer fails with bad range `5..13`, size 12. -/
theorem claim_C2_witness :
    u_try_from_ctx 8 (List.replicate 12 0) 5 true =
      .error (.BadRange 5 13 12) :=
  (claim_C2_bounds_enforcement 8 5 (List.replicate 12 0) true 0 0).2.1
    (by decide)

/-- Claim C8: the fallible numeric read equals the spec's validate-then-
delegate composition, and on success its value is the infallible read of the
validated sub-range `src[offset..offset+w]`, for unsigned and signed types
alike. -/
theorem claim_C8_validate_then_delegate :
    ∀ (w : Nat) (src : Bytes) (offset : Nat) (le : Bool),
      u_try_from_ctx w src offset le =
        spec_validate_then_delegate w src offset le ∧
      (∀ x, u_try_from_ctx w src offset le = .ok x →
        x = u_from_ctx w ((src.drop offset).take w) le) ∧
      (∀ x, i_try_from_ctx w src offset le = .ok x →
        x = i_from_ctx w ((src.drop offset).take w) le) := by
  intro w src offset le
  refine ⟨?_, ?_, ?_⟩
  · unfold u_try_from_ctx spec_validate_then_delegate
    by_cases h : offset + w > src.length
    · rw [if_pos h, if_neg (by omega)]
    · rw [if_neg h, if_pos (by omega)]
  · intro x hx
    unfold u_try_from_ctx at hx
    by_cases h : offset + w > src.length
    · rw [if_pos h] at hx
      exact absurd hx (by simp)
    · rw [if_neg h] at hx
      simp only [Except.ok.injEq] at hx
      exact hx.symm
  · intro x hx
    unfold i_try_from_ctx at hx
    by_cases h : offset + w > src.length
    · rw [if_pos h] at hx
      exact absurd hx (by simp)
    · rw [if_neg h] at hx
      simp only [Except.ok.injEq] at hx
      exact hx.symm

/-- Witness for C8 at a concrete in-bounds input: the 4-byte little-endian
read at offset 1 of `[1,2,3,4,5,6]` is the infallible read of the sub-range
`[2,3,4,5]`, namely `0x05040302`. -/
theorem claim_C8_witness :
    (84148994 : Nat) =
      u_from_ctx 4 ((([1, 2, 3, 4, 5, 6] : Bytes).drop 1).take 4) true :=
  (claim_C8_validate_then_delegate 4 [1, 2, 3, 4, 5, 6] 1 true).2.1
    84148994 (by decide)

/-- Claim C9: the raw byte-range operations validate `offset + count ≤
length`: the fallible slice read returns the borrowed sub-range exactly when
in bounds (bad range otherwise), and the fallible slice write copies exactly
its `count` bytes into `dst[offset..offset+count]` exactly when in bounds
(bad range otherwise, destination unmodified). -/
theorem claim_C9_raw_byte_range :
    ∀ (b self dst : Bytes) (offset count uoffset : Nat),
      (offset + count ≤ b.length →
        bytes_try_ref_from_ctx b offset count =
          .ok ((b.drop offset).take count)) ∧
      (b.length < offset + count →
        bytes_try_ref_from_ctx b offset count =
          .error (.BadRange offset (offset + count) b.length)) ∧
      (uoffset + self.length ≤ dst.length →
        (bytes_try_into_ctx self dst uoffset).1 = .ok () ∧
        ((bytes_try_into_ctx self dst uoffset).2.drop uoffset).take
          self.length = self) ∧
      (dst.length < uoffset + self.length →
        bytes_try_into_ctx self dst uoffset =
          (.error (.BadRange uoffset (uoffset + self.length) dst.length),
            dst)) := by
  intro b self dst offset count uoffset
  refine ⟨?_, ?_, ?_, ?_⟩
  · intro h
    unfold bytes_try_ref_from_ctx
    rw [if_neg (by omega)]
  · intro h
    unfold bytes_try_ref_from_ctx
    rw [if_pos (by omega)]
  · intro h
    unfold bytes_try_into_ctx
    rw [if_neg (by omega)]
    refine ⟨rfl, ?_⟩
    have hlen : (dst.take uoffset).length = uoffset := by
      rw [List.length_take]
      omega
    rw [List.append_assoc, List.drop_left' hlen, List.take_left' rfl]
  · intro h
    unfold bytes_try_into_ctx
    rw [if_pos (by omega)]

/-- Witness for C9 at concrete inputs: reading 2 bytes at offset 1 of
`[1,2,3]` yields the sub-range `[2,3]`. -/
theorem claim_C9_witness :
    bytes_try_ref_from_ctx [1, 2, 3] 1 2 = .ok [2, 3] :=
  (claim_C9_raw_byte_range [1, 2, 3] [] [] 1 2 0).1 (by decide)

/-- Claim C6: fixed-length text extraction validates the range first (bad
range when violated); in bounds but invalid UTF-8 yields bad input (not bad
range) with range `offset..offset+count` and size `count`; in particular the
bytes `0xFF 0xFE` requested as text of count 2 yield bad input with range
`offset..offset+2` and size 2. -/
theorem claim_C6_fixed_length_text :
    ∀ (b : Bytes) (offset count : Nat),
      (b.length < offset + count →
        str_try_ref_from_ctx b offset count =
          .error (.BadRange offset (offset + count) b.length)) ∧
      (offset + count ≤ b.length →
        utf8Valid ((b.drop offset).take count) = false →
        str_try_ref_from_ctx b offset count =
          .error (.BadInput offset (offset + count) count invalidUtf8Msg)) ∧
      ((b.drop offset).take 2 = [0xFF, 0xFE] →
        str_try_ref_from_ctx b offset 2 =
          .error (.BadInput offset (offset + 2) 2 invalidUtf8Msg)) := by
  intro b offset count
  have main : ∀ c : Nat, offset + c ≤ b.length →
      utf8Valid ((b.drop offset).take c) = false →
      str_try_ref_from_ctx b offset c =
        .error (.BadInput offset (offset + c) c invalidUtf8Msg) := by
    intro c h hv
    unfold str_try_ref_from_ctx
    rw [if_neg (by omega)]
    simp only [hv, Bool.false_eq_true, if_false]
    rw [sub_slice_length b offset c h]
  refine ⟨?_, main count, ?_⟩
  · intro h
    unfold str_try_ref_from_ctx
    rw [if_pos (by omega)]
  · intro h2
    have hlen2 : ((b.drop offset).take 2).length = 2 := by
      rw [h2]
      rfl
    have hle : offset + 2 ≤ b.length := by
      rw [List.length_take, List.length_drop] at hlen2
      omega
    exact main 2 hle (by rw [h2]; rfl)

/-- Witness for C6 at the concrete input of the claim: the two bytes
`0xFF 0xFE` read as fixed-length text of count 2 give bad input with range
`0..2` and size 2. -/
theorem claim_C6_witness :
    str_try_ref_from_ctx [0xFF, 0xFE] 0 2 =
      .error (.BadInput 0 2 2 invalidUtf8Msg) :=
  (claim_C6_fixed_length_text [0xFF, 0xFE] 0 2).2.2 (by decide)

/-- Claim C3: delimited extraction of `"hello\x00world"` with a null
delimiter yields `"hello"` from offset 0 and `"world"` from offset 6 (end of
buffer without a delimiter is success), and any scan whose byte at the
offset already equals the delimiter yields the empty string. -/
theorem claim_C3_delimited_text :
    (str_try_from_ctx [104, 101, 108, 108, 111, 0, 119, 111, 114, 108, 100]
        0 0 = .ok [104, 101, 108, 108, 111]) ∧
    (str_try_from_ctx [104, 101, 108, 108, 111, 0, 119, 111, 114, 108, 100]
        6 0 = .ok [119, 111, 114, 108, 100]) ∧
    (∀ (src : Bytes) (offset d : Nat), offset < src.length →
      src.getD offset 0 = d → str_try_from_ctx src offset d = .ok []) := by
  refine ⟨by decide, by decide, ?_⟩
  intro src offset d hlt hd
  have hoff : get_str_delimiter_offset src offset d = offset := by
    simp only [get_str_delimiter_offset]
    rw [if_pos hd]
  simp only [str_try_from_ctx, hoff, Nat.sub_self]
  rw [if_neg (by omega)]
  simp

/-- Witness for C3's universal part at a concrete input: the byte at offset
0 of `[0, 55]` is the null delimiter, so the scan yields the empty string. -/
theorem claim_C3_witness :
    str_try_from_ctx [0, 55] 0 0 = .ok [] :=
  claim_C3_delimited_text.2.2 [0, 55] 0 0 (by decide) (by decide)

/-- Claim C10: the delimited string read returns bad offset carrying exactly
the offset whenever `offset ≥ source length` (in particular on every offset
into an empty source), it returns bad offset only then, and no other core
operation ever produces the bad-offset variant. -/
theorem claim_C10_bad_offset_policy :
    (∀ (src : Bytes) (offset d : Nat), src.length ≤ offset →
      str_try_from_ctx src offset d = .error (.BadOffset offset)) ∧
    (∀ (src : Bytes) (offset d : Nat) (e : Error),
      str_try_from_ctx src offset d = .error e → e.isBadOffset = true →
      src.length ≤ offset ∧ e = .BadOffset offset) ∧
    (∀ (w : Nat) (src : Bytes) (offset : Nat) (le : Bool) (e : Error),
      u_try_from_ctx w src offset le = .error e → e.isBadOffset = false) ∧
    (∀ (w : Nat) (src : Bytes) (offset : Nat) (le : Bool) (e : Error),
      i_try_from_ctx w src offset le = .error e → e.isBadOffset = false) ∧
    (∀ (w n : Nat) (dst : Bytes) (offset : Nat) (le : Bool) (e : Error),
      (u_try_into_ctx w n dst offset le).1 = .error e →
      e.isBadOffset = false) ∧
    (∀ (b : Bytes) (offset count : Nat) (e : Error),
      bytes_try_ref_from_ctx b offset count = .error e →
      e.isBadOffset = false) ∧
    (∀ (b : Bytes) (offset count : Nat) (e : Error),
      str_try_ref_from_ctx b offset count = .error e →
      e.isBadOffset = false) ∧
    (∀ (self dst : Bytes) (uoffset : Nat) (e : Error),
      (bytes_try_into_ctx self dst uoffset).1 = .error e →
      e.isBadOffset = false) := by
  refine ⟨?_, ?_, ?_, ?_, ?_, ?_, ?_, ?_⟩
  · intro src offset d hoff
    simp only [str_try_from_ctx]
    rw [if_pos (by omega)]
  · intro src offset d e h hb
    simp only [str_try_from_ctx] at h
    split at h
    · injection h with h2
      constructor
      · omega
      · exact h2.symm
    · split at h
      · exact absurd h (by simp)
      · split at h
        · exact absurd h (by simp)
        · injection h with h2
          rw [← h2] at hb
          simp [Error.isBadOffset] at hb
  · intro w src offset le e h
    unfold u_try_from_ctx at h
    split at h
    · injection h with h2
      rw [← h2]
      rfl
    · exact absurd h (by simp)
  · intro w src offset le e h
    unfold i_try_from_ctx at h
    split at h
    · injection h with h2
      rw [← h2]
      rfl
    · exact absurd h (by simp)
  · intro w n dst offset le e h
    unfold u_try_into_ctx at h
    split at h
    · injection h with h2
      rw [← h2]
      rfl
    · exact absurd h (by simp)
  · intro b offset count e h
    unfold bytes_try_ref_from_ctx at h
    split at h
    · injection h with h2
      rw [← h2]
      rfl
    · exact absurd h (by simp)
  · intro b offset count e h
    simp only [str_try_ref_from_ctx] at h
    split at h
    · injection h with h2
      rw [← h2]
      rfl
    · split at h
      · exact absurd h (by simp)
      · injection h with h2
        rw [← h2]
        rfl
  · intro self dst uoffset e h
    unfold bytes_try_into_ctx at h
    split at h
    · injection h with h2
      rw [← h2]
      rfl
    · exact absurd h (by simp)

/-- Witness for C10 at concrete inputs: offset 5 into the empty source is
rejected with bad offset 5. -/
theorem claim_C10_witness :
    str_try_from_ctx [] 5 0 = .error (.BadOffset 5) :=
  claim_C10_bad_offset_policy.1 [] 5 0 (by decide)

/-- Claim C7: a successful fallible numeric write mutates only the sub-range
`offset..offset+w` of the destination: the buffer keeps its length and every
position outside that range holds the same byte as before (reads are pure
functions of the source in this model and mutate nothing). -/
theorem claim_C7_write_frame :
    ∀ (w n : Nat) (dst : Bytes) (offset : Nat) (le : Bool),
      (u_try_into_ctx w n dst offset le).1 = .ok () →
      ((u_try_into_ctx w n dst offset le).2.length = dst.length ∧
       ∀ i : Nat, i < offset ∨ offset + w ≤ i →
         (u_try_into_ctx w n dst offset le).2[i]? = dst[i]?) := by
  intro w n dst offset le hok
  have hle : offset + w ≤ dst.length :=
    (u_try_into_ctx_ok_iff w n dst offset le).mp hok
  have hsub : ((dst.drop offset).take w).drop w = [] := by
    apply List.eq_nil_of_length_eq_zero
    rw [List.length_drop, sub_slice_length dst offset w hle]
    omega
  have hbuf : (u_try_into_ctx w n dst offset le).2 =
      dst.take offset ++ encodeBytes w n le ++ dst.drop (offset + w) := by
    unfold u_try_into_ctx u_into_ctx write_into
    rw [if_neg (by omega)]
    show dst.take offset ++
        (encodeBytes w n le ++ ((dst.drop offset).take w).drop w) ++
        dst.drop (offset + w) = _
    rw [hsub, List.append_nil]
  have htak : (dst.take offset).length = offset := by
    rw [List.length_take]
    omega
  have h1 : (dst.take offset ++ encodeBytes w n le).length = offset + w := by
    rw [List.length_append, htak, encodeBytes_length]
  constructor
  · rw [hbuf]
    simp only [List.length_append, htak, encodeBytes_length,
      List.length_drop]
    omega
  · intro i hi
    rw [hbuf]
    rcases hi with hi | hi
    · rw [List.getElem?_append, h1, if_pos (by omega),
        List.getElem?_append, htak, if_pos (by omega), List.getElem?_take,
        if_pos (by omega)]
    · rw [List.getElem?_append_right (by rw [h1]; omega), h1,
        List.getElem?_drop]
      have harg : offset + w + (i - (offset + w)) = i := by omega
      rw [harg]

/-- Witness for C7 at a concrete input: writing two bytes at offset 1 of a
four-byte buffer leaves the byte at position 3 unchanged. -/
theorem claim_C7_witness :
    (u_try_into_ctx 2 48879 [9, 9, 9, 9] 1 true).2[3]? =
      ([9, 9, 9, 9] : Bytes)[3]? :=
  (claim_C7_write_frame 2 48879 [9, 9, 9, 9] 1 true (by decide)).2 3
    (by decide)

/-- Claim C5: encoding a `w`-byte value with Little then decoding with
Little is the identity; encoding with Little then decoding with Big gives
the value whose bit pattern is the full byte reversal (`swap_bytes`) of the
original, and that equals the original exactly when the byte image is a
palindrome. -/
theorem claim_C5_byte_order_bijection :
    ∀ (w n : Nat) (dst : Bytes), n < 2 ^ (8 * w) →
      u_from_ctx w (write_into w n dst true) true = n ∧
      u_from_ctx w (write_into w n dst true) false = swap_bytes w n ∧
      (swap_bytes w n = n ↔
        (natToBytesLE w n).reverse = natToBytesLE w n) := by
  intro w n dst h
  have h256 : n < 256 ^ w := by
    rw [pow256_eq]
    exact h
  have hmod : n % 256 ^ w = n := Nat.mod_eq_of_lt h256
  refine ⟨?_, ?_, swap_bytes_eq_self_iff w n h256⟩
  · unfold write_into
    rw [encodeBytes_true, decode_encode_le]
    exact hmod
  · unfold write_into
    rw [encodeBytes_true, decode_le_as_be, hmod]

/-- Witness for C5 at a concrete input: the 4-byte value `0x12345678`
decodes to itself under Little/Little and to `0x78563412` under Little/Big,
and is not byte-palindromic. -/
theorem claim_C5_witness :
    u_from_ctx 4 (write_into 4 0x12345678 (List.replicate 4 0) true) true =
        0x12345678 ∧
      u_from_ctx 4 (write_into 4 0x12345678 (List.replicate 4 0) true)
        false = swap_bytes 4 0x12345678 :=
  ⟨(claim_C5_byte_order_bijection 4 0x12345678 (List.replicate 4 0)
      (by decide)).1,
   (claim_C5_byte_order_bijection 4 0x12345678 (List.replicate 4 0)
      (by decide)).2.1⟩

/-- Claim C1: for every byte order, writing the minimum, maximum and zero
value of each supported numeric type (`u8/i8/u16/i16/u32/i32/u64/i64` and
the `f32`/`f64` bit patterns) with `try_into_ctx` at offset 0 into a zeroed
buffer of exactly the type's width, then reading it back with
`try_from_ctx` at offset 0 with the same byte order, returns the original
value. -/
theorem claim_C1_roundtrip :
    ∀ le : Bool,
      roundTripU 1 0 le ∧ roundTripU 1 255 le ∧
      roundTripI 1 (-128) le ∧ roundTripI 1 0 le ∧ roundTripI 1 127 le ∧
      roundTripU 2 0 le ∧ roundTripU 2 65535 le ∧
      roundTripI 2 (-32768) le ∧ roundTripI 2 0 le ∧
      roundTripI 2 32767 le ∧
      roundTripU 4 0 le ∧ roundTripU 4 4294967295 le ∧
      roundTripI 4 (-2147483648) le ∧ roundTripI 4 0 le ∧
      roundTripI 4 2147483647 le ∧
      roundTripU 8 0 le ∧ roundTripU 8 18446744073709551615 le ∧
      roundTripI 8 (-9223372036854775808) le ∧ roundTripI 8 0 le ∧
      roundTripI 8 9223372036854775807 le ∧
      roundTripF32 f32_min_bits le ∧ roundTripF32 0 le ∧
      roundTripF32 f32_max_bits le ∧
      roundTripF64 f64_min_bits le ∧ roundTripF64 0 le ∧
      roundTripF64 f64_max_bits le := by
  intro le
  cases le <;> repeat' apply And.intro
  all_goals decide

end Scroll
